import Mathlib

/-!
Shallow embedding of the streaming-history ingestion and aggregation
pipeline of the JSONstorage1 server (src/server/index.ts and
src/server/db.ts), together with theorems settling the frozen claims
about it.

Conventions of the embedding:
* A raw history entry (an arbitrary JSON object in the source) is
  modelled by `RawRecord`; a JSON field that may be absent or null is an
  `Option`.  JavaScript truthiness of a string field
  (`r.master_metadata_track_name`) holds exactly when the field is a
  present, non-empty string (`truthyStr`).
* The database is modelled as explicit state: `Db` carries the `users`
  and `streaming_history` tables; comments and comment_likes live in
  `CommentDb`.  SQL `ILIKE` applied to a whole name (no wildcard
  characters in any of the modelled queries' parameters) is modelled as
  case-insensitive string equality via ASCII case folding (`lowerKey`).
* `pool.query` failures and JSON parse failures are modelled by fault
  injection on the inputs: a `FileInput` either fails to parse
  (`parsed = none`) or throws a storage error at a given batch index
  (`insertFailAt`), mirroring where the source's try/catch blocks sit.
-/

/-- One raw streaming-history entry, as read from a JSON export file.
Fields mirror `record.ts`, `record.master_metadata_track_name`,
`record.master_metadata_album_artist_name`,
`record.master_metadata_album_album_name`, `record.ms_played`,
`record.spotify_track_uri`, `record.platform` in the source. -/
structure RawRecord where
  ts : String
  track : Option String
  artist : Option String
  album : Option String
  ms_played : Int
  uri : Option String
  plat : Option String
deriving Repr, DecidableEq

/-- JavaScript truthiness of an optional string field: truthy iff the
field is present and the string is non-empty. -/
def truthyStr : Option String → Bool
  | some s => s ≠ ""
  | none => false

/-- ASCII lowercasing of one character code, the `lower()` underlying the
modelled `ILIKE` comparisons. -/
def lowerCharCode (c : Char) : Nat :=
  if 65 ≤ c.toNat ∧ c.toNat ≤ 90 then c.toNat + 32 else c.toNat

/-- The case-folded key of a string. -/
def lowerKey (s : String) : List Nat := s.data.map lowerCharCode

/-- SQL `a ILIKE b` for a pattern without wildcard characters (every
modelled query passes a whole name as the pattern): case-insensitive
equality of the two strings. -/
def ciEq (a b : String) : Bool := decide (lowerKey a = lowerKey b)

/-- The record validator, from
`data.filter((r: any) => r.master_metadata_track_name && r.ms_played > 0)`
(src/server/index.ts line 52, line 295; same expression in the sync path). -/
def isValidRecord (r : RawRecord) : Bool :=
  truthyStr r.track && decide (r.ms_played > 0)

/-- `const validRecords = data.filter(...)`. -/
def validRecords (data : List RawRecord) : List RawRecord :=
  data.filter isValidRecord

/-- `const BATCH_SIZE = 500` (src/server/index.ts line 54, line 290). -/
def BATCH_SIZE : Nat := 500

/-- The batching loop
`for (let i = 0; i < validRecords.length; i += BATCH_SIZE) { const batch = validRecords.slice(i, i + BATCH_SIZE); ... }`
as a chunking function: successive slices of length `n` (the last one
possibly shorter). -/
def chunksFuel {α : Type} (n : Nat) : Nat → List α → List (List α)
  | _, [] => []
  | 0, _ :: _ => []
  | fuel + 1, x :: xs => ((x :: xs).take n) :: chunksFuel n fuel ((x :: xs).drop n)

/-- The chunking function proper: `chunksFuel` with enough fuel (each
iteration of the source loop consumes at least one record, so `xs.length`
iterations always suffice; the fuel only makes the recursion
structural). -/
def chunks {α : Type} (n : Nat) (xs : List α) : List (List α) :=
  chunksFuel n xs.length xs

/-- One row of the `streaming_history` table (src/server/db.ts lines
19-30); `id` and `created_at` play no role in any claim and are
omitted. -/
structure StreamEvent where
  user_id : Nat
  ts : String
  track_name : Option String
  artist_name : Option String
  album_name : Option String
  ms_played : Int
  uri : Option String
  plat : Option String
deriving Repr, DecidableEq

/-- The values pushed for one record of a batch
(`values.push(userId, record.ts, record.master_metadata_track_name, ...)`). -/
def toEvent (uid : Nat) (r : RawRecord) : StreamEvent :=
  { user_id := uid
    ts := r.ts
    track_name := r.track
    artist_name := r.artist
    album_name := r.album
    ms_played := r.ms_played
    uri := r.uri
    plat := r.plat }

/-- One row of the `users` table (src/server/db.ts lines 9-17);
password/spotify columns play no role in any claim. -/
structure User where
  id : Nat
  username : String
  avatar : String
deriving Repr, DecidableEq

/-- The database state the ingestion pipeline reads and writes:
the `users` table, the `streaming_history` table, and the next value of
the users `SERIAL` id sequence. -/
structure Db where
  users : List User
  events : List StreamEvent
  nextUserId : Nat
deriving Repr, DecidableEq

/-- `SELECT id FROM users WHERE username = $1` (exact match; the upload
endpoint, src/server/index.ts line 276). -/
def findUserExact (db : Db) (name : String) : Option User :=
  db.users.find? (fun u => u.username = name)

/-- `SELECT id FROM users WHERE username ILIKE $1` (case-insensitive
match of the whole name; the sync path, src/server/db.ts line 194 of the
embedded server). -/
def findUserCI (db : Db) (name : String) : Option User :=
  db.users.find? (fun u => ciEq u.username name)

/-- User resolution of the upload endpoint (src/server/index.ts lines
276-287): exact-match lookup; on miss,
`INSERT INTO users (username, avatar) VALUES ($1, 'goat') RETURNING id`.
Returns the updated state and the resolved id. -/
def resolveUserUpload (db : Db) (name : String) : Db × Nat :=
  match findUserExact db name with
  | some u => (db, u.id)
  | none =>
      (⟨db.users ++ [⟨db.nextUserId, name, "goat"⟩], db.events, db.nextUserId + 1⟩,
       db.nextUserId)

/-- User resolution of the startup sync (src/server/db.ts lines 194-206
of the embedded server): `ILIKE` lookup; on miss the same insert with
default avatar. -/
def resolveUserSync (db : Db) (name : String) : Db × Nat :=
  match findUserCI db name with
  | some u => (db, u.id)
  | none =>
      (⟨db.users ++ [⟨db.nextUserId, name, "goat"⟩], db.events, db.nextUserId + 1⟩,
       db.nextUserId)

/-- One uploaded (or on-disk) history file, with fault injection
mirroring the source's failure points: `parsed = none` models
`JSON.parse`/`readFileSync` throwing, and `insertFailAt = some k` models
`pool.query` throwing on the k-th insert statement of this file
(0-based); batches before k were already issued and persisted. -/
structure FileInput where
  parsed : Option (List RawRecord)
  insertFailAt : Option Nat
deriving Repr, DecidableEq

/-- The batches of a file that are actually issued and persisted: none
when the file fails to parse; all `chunks` of its validated records when
no storage error occurs; only the batches before the failing one when a
storage error is thrown mid-file (the per-file catch aborts the rest). -/
def insertedBatches (f : FileInput) : List (List RawRecord) :=
  match f.parsed with
  | none => []
  | some data =>
      let bs := chunks BATCH_SIZE (validRecords data)
      match f.insertFailAt with
      | none => bs
      | some k => bs.take k

/-- The stream events a file contributes for user `uid`. -/
def fileEvents (uid : Nat) (f : FileInput) : List StreamEvent :=
  (insertedBatches f).flatten.map (toEvent uid)

/-- The per-file loop of the upload endpoint (src/server/index.ts lines
292-328): each file is processed inside its own try/catch, appending its
inserted batches to `streaming_history` and adding each inserted batch's
length to `totalRecords`. -/
def processFiles (uid : Nat) (files : List FileInput)
    (events : List StreamEvent) : List StreamEvent × Nat :=
  files.foldl
    (fun acc f => (acc.1 ++ fileEvents uid f, acc.2 + (fileEvents uid f).length))
    (events, 0)

/-- The JSON body `{ success: true, userId, recordsImported: totalRecords }`. -/
structure UploadResponse where
  success : Bool
  userId : Nat
  recordsImported : Nat
deriving Repr, DecidableEq

/-- `app.post('/api/upload')` (src/server/index.ts lines 271-335):
resolve or create the target user, process every file under a per-file
catch, and answer success with the accumulated record count. -/
def uploadHandler (db : Db) (name : String) (files : List FileInput) :
    Db × UploadResponse :=
  let r := resolveUserUpload db name
  let p := processFiles r.2 files r.1.events
  (⟨r.1.users, p.1, r.1.nextUserId⟩, ⟨true, r.2, p.2⟩)

/-- `SELECT COUNT(*) FROM streaming_history WHERE user_id = $1` restricted
to one user: the rows of `streaming_history` belonging to `uid`. -/
def eventsFor (db : Db) (uid : Nat) : List StreamEvent :=
  db.events.filter (fun e => e.user_id = uid)

/-- One username group of the startup sync (src/server/db.ts lines
192-252 of the embedded server): resolve the user case-insensitively,
skip the whole group when the user already has at least one persisted
event, otherwise insert every file's batches under a per-file catch. -/
def processGroup (db : Db) (g : String × List FileInput) : Db :=
  let r := resolveUserSync db g.1
  if (eventsFor r.1 r.2).length > 0 then r.1
  else
    let p := processFiles r.2 g.2 r.1.events
    ⟨r.1.users, p.1, r.1.nextUserId⟩

/-- `syncAllUsersFromFiles` from the point where files have been grouped
by the username embedded in their names (src/server/db.ts lines 192-256
of the embedded server): the groups are processed sequentially, each
under its own catch. -/
def syncRun (db : Db) (groups : List (String × List FileInput)) : Db :=
  groups.foldl processGroup db

/-- The comment state: `comments` as (comment id, stored likes counter)
pairs and `comment_likes` as (comment id, user id) pairs, unique per
pair (src/server/db.ts lines 32-46). -/
structure CommentDb where
  comments : List (Nat × Nat)
  commentLikes : List (Nat × Nat)
deriving Repr, DecidableEq

/-- `COUNT(*) FROM comment_likes WHERE comment_id = $1`. -/
def likeRowsFor (s : CommentDb) (cid : Nat) : Nat :=
  (s.commentLikes.filter (fun p => p.1 = cid)).length

/-- `app.post('/api/comment/:commentId/like')` (src/server/index.ts lines
249-269): `INSERT INTO comment_likes ... ON CONFLICT DO NOTHING` (the
UNIQUE(comment_id, user_id) constraint makes the insert a no-op when the
pair exists), then
`UPDATE comments SET likes = (SELECT COUNT(*) FROM comment_likes WHERE comment_id = $1) WHERE id = $1`.
`likeInsert` is the conflict-tolerant insert; `likeComment` is the whole
handler: insert, then recompute the stored counter of the liked comment
from the `comment_likes` table. -/
def likeInsert (s : CommentDb) (cid uid : Nat) : List (Nat × Nat) :=
  if (cid, uid) ∈ s.commentLikes then s.commentLikes
  else s.commentLikes ++ [(cid, uid)]

def likeComment (s : CommentDb) (cid uid : Nat) : CommentDb :=
  ⟨s.comments.map (fun p =>
      if p.1 = cid
      then (p.1, ((likeInsert s cid uid).filter (fun q => q.1 = cid)).length)
      else p),
    likeInsert s cid uid⟩

/-- `sh.artist_name ILIKE $1` for a plain artist name (no wildcard
characters): NULL never matches; otherwise case-insensitive equality. -/
def artistMatches (a : Option String) (name : String) : Bool :=
  match a with
  | some s => ciEq s name
  | none => false

/-- `SUM(sh.ms_played)` of one user's rows matching the artist. -/
def userArtistMs (events : List StreamEvent) (uid : Nat) (artist : String) : Int :=
  ((events.filter
      (fun e => e.user_id = uid && artistMatches e.artist_name artist)).map
    (fun e => e.ms_played)).sum

/-- The grouped rows of the leaderboard query (src/server/index.ts lines
165-178) before ordering: one `(user id, SUM(ms_played))` row per user
owning at least one `streaming_history` row whose artist matches
(`GROUP BY u.id` over the inner join); username/avatar/song_count
columns play no role in the ranking claim and are omitted. -/
def artistRows (db : Db) (artist : String) : List (Nat × Int) :=
  (db.users.filter
      (fun u => db.events.any
        (fun e => e.user_id = u.id && artistMatches e.artist_name artist))).map
    (fun u => (u.id, userArtistMs db.events u.id artist))

/-- `ORDER BY total_ms DESC` as a relation on rows. -/
def msDesc (a b : Nat × Int) : Prop := b.2 ≤ a.2

instance : DecidableRel msDesc := fun a b => by
  unfold msDesc; infer_instance

instance : IsTotal (Nat × Int) msDesc := ⟨fun a b => le_total b.2 a.2⟩

instance : IsTrans (Nat × Int) msDesc := ⟨fun _ _ _ h1 h2 => le_trans h2 h1⟩

/-- `ORDER BY total_ms DESC LIMIT 10`: the rows sorted by descending
summed duration (the engine's ordering among equal sums is unspecified;
the embedding fixes one such order) and truncated to ten. -/
def leaderboard (db : Db) (artist : String) : List (Nat × Int) :=
  (List.insertionSort msDesc (artistRows db artist)).take 10

/-- `Math.round(x / 60000)` on an integer number of milliseconds:
`Math.round` is floor(x + 1/2), so the result is ⌊(2 ms + 60000) / 120000⌋
(floor division, `Int.fdiv`). -/
def jsRoundMinutes (ms : Int) : Int :=
  Int.fdiv (2 * ms + 60000) 120000

/-- `COALESCE(SUM(ms_played), 0) ... WHERE user_id = $1`. -/
def totalMsFor (db : Db) (uid : Nat) : Int :=
  ((eventsFor db uid).map (fun e => e.ms_played)).sum

/-- `stats.totalMinutes = Math.round(total_ms / 60000)`
(src/server/index.ts line 140). -/
def totalMinutes (db : Db) (uid : Nat) : Int :=
  jsRoundMinutes (totalMsFor db uid)

/-- `COUNT(DISTINCT track_name) ... WHERE user_id = $1`
(src/server/index.ts lines 107-112): the number of distinct non-NULL
track names among the user's rows. -/
def totalSongs (db : Db) (uid : Nat) : Nat :=
  (((eventsFor db uid).filterMap (fun e => e.track_name)).dedup).length

/-- `app.get('/api/user/:userId?')` for a non-numeric `userId` parameter
(src/server/index.ts lines 90-141): `username ILIKE $1` lookup, 404 when
absent, else the stats block `(id, totalMinutes, totalSongs)`. -/
def getUserProfile (db : Db) (name : String) : Option (Nat × Int × Nat) :=
  (findUserCI db name).map (fun u => (u.id, totalMinutes db u.id, totalSongs db u.id))

/-- A file on which the source's per-file try block runs to completion:
it parses, and no storage error strikes one of its issued batches. -/
def fileSucceeded (f : FileInput) : Bool :=
  match f.parsed with
  | none => false
  | some data =>
      match f.insertFailAt with
      | none => true
      | some k => (chunks BATCH_SIZE (validRecords data)).length ≤ k

/-- The reading of C7's final clause "the recordsImported count
accumulated from the files that succeeded": the total validated-record
count of the files whose processing completed without error. -/
def succeededRecordCount (files : List FileInput) : Nat :=
  ((files.filter fileSucceeded).map
    (fun f => (insertedBatches f).flatten.length)).sum

/-! ### Lemmas about the batching loop -/

theorem chunksFuel_congr {α : Type} (n : Nat) (hn : n ≠ 0) :
    ∀ (f1 f2 : Nat) (xs : List α), xs.length ≤ f1 → xs.length ≤ f2 →
      chunksFuel n f1 xs = chunksFuel n f2 xs := by
  intro f1
  induction f1 with
  | zero =>
      intro f2 xs h1 _
      have : xs = [] := List.length_eq_zero.mp (Nat.le_zero.mp h1)
      subst this
      cases f2 <;> rfl
  | succ f1 ih =>
      intro f2 xs h1 h2
      cases xs with
      | nil => cases f2 <;> rfl
      | cons x xs =>
          cases f2 with
          | zero => simp at h2
          | succ f2 =>
              show ((x :: xs).take n) :: chunksFuel n f1 ((x :: xs).drop n)
                  = ((x :: xs).take n) :: chunksFuel n f2 ((x :: xs).drop n)
              have hd : ((x :: xs).drop n).length = (x :: xs).length - n :=
                List.length_drop n (x :: xs)
              rw [ih f2 ((x :: xs).drop n) (by simp at h1 ⊢; omega)
                (by simp at h2 ⊢; omega)]

theorem chunks_eq {α : Type} (n : Nat) (hn : n ≠ 0) (xs : List α) :
    chunks n xs = if xs.isEmpty then [] else xs.take n :: chunks n (xs.drop n) := by
  cases xs with
  | nil => rfl
  | cons x xs =>
      have hstep : chunks n (x :: xs)
          = ((x :: xs).take n) :: chunksFuel n xs.length ((x :: xs).drop n) := rfl
      rw [hstep, if_neg (by simp)]
      show _ :: chunksFuel n xs.length ((x :: xs).drop n)
          = _ :: chunksFuel n ((x :: xs).drop n).length ((x :: xs).drop n)
      rw [chunksFuel_congr n hn xs.length ((x :: xs).drop n).length ((x :: xs).drop n)
        (by simp; omega) (le_refl _)]

theorem chunks_flatten {α : Type} (n : Nat) (hn : n ≠ 0) (xs : List α) :
    (chunks n xs).flatten = xs := by
  rw [chunks_eq n hn xs]
  by_cases h : xs.isEmpty
  · rw [if_pos h]
    rw [List.isEmpty_iff] at h
    simp [h]
  · rw [if_neg h]
    simp only [List.flatten_cons, chunks_flatten n hn (xs.drop n)]
    exact List.take_append_drop n xs
termination_by xs.length
decreasing_by
  have hx : 0 < xs.length := List.length_pos.mpr (by simpa [List.isEmpty_iff] using h)
  simpa [List.length_drop] using Nat.sub_lt hx (Nat.pos_of_ne_zero hn)

theorem chunks_length {α : Type} (n : Nat) (hn : n ≠ 0) (xs : List α) :
    (chunks n xs).length = (xs.length + (n - 1)) / n := by
  rw [chunks_eq n hn xs]
  by_cases h : xs.isEmpty
  · rw [List.isEmpty_iff] at h
    subst h
    simp [Nat.div_eq_of_lt (show n - 1 < n by omega)]
  · rw [if_neg h]
    have hlen : 0 < xs.length := List.length_pos.mpr (by simpa [List.isEmpty_iff] using h)
    have hnpos : 0 < n := Nat.pos_of_ne_zero hn
    simp only [List.length_cons, chunks_length n hn (xs.drop n), List.length_drop]
    rcases Nat.lt_or_ge xs.length n with hlt | hge
    · have h0 : xs.length - n = 0 := by omega
      rw [h0, Nat.div_eq_of_lt (show 0 + (n - 1) < n by omega),
        Nat.div_eq_of_lt_le (show 1 * n ≤ xs.length + (n - 1) by omega)
          (show xs.length + (n - 1) < 2 * n by omega)]
    · have heq : xs.length - n + (n - 1) + n = xs.length + (n - 1) := by omega
      rw [← heq, Nat.add_div_right _ hnpos]
termination_by xs.length
decreasing_by
  have hx : 0 < xs.length := List.length_pos.mpr (by simpa [List.isEmpty_iff] using h)
  simpa [List.length_drop] using Nat.sub_lt hx (Nat.pos_of_ne_zero hn)

theorem insertedBatches_no_failure (data : List RawRecord) :
    insertedBatches ⟨some data, none⟩ = chunks BATCH_SIZE (validRecords data) := rfl

theorem fileEvents_no_failure (uid : Nat) (data : List RawRecord) :
    fileEvents uid ⟨some data, none⟩ = (validRecords data).map (toEvent uid) := by
  unfold fileEvents
  rw [insertedBatches_no_failure,
    chunks_flatten BATCH_SIZE (by unfold BATCH_SIZE; omega) (validRecords data)]

theorem processFiles_spec (uid : Nat) (files : List FileInput)
    (events : List StreamEvent) :
    processFiles uid files events
      = (events ++ ((files.map (fileEvents uid)).flatten),
         (((files.map (fileEvents uid)).map List.length).sum)) := by
  unfold processFiles
  suffices h : ∀ (fs : List FileInput) (acc : List StreamEvent × Nat),
      fs.foldl
          (fun acc f => (acc.1 ++ fileEvents uid f, acc.2 + (fileEvents uid f).length))
          acc
        = (acc.1 ++ ((fs.map (fileEvents uid)).flatten),
           acc.2 + (((fs.map (fileEvents uid)).map List.length).sum)) by
    rw [h files (events, 0)]
    simp
  intro fs
  induction fs with
  | nil => intro acc; simp
  | cons f fs ih =>
      intro acc
      simp only [List.foldl_cons, ih, List.map_cons, List.flatten_cons, List.sum_cons]
      rw [List.append_assoc, Nat.add_assoc]

/-! ### Claim theorems -/

/-- C1: in an ingestion run over a parsed file, a record is persisted iff
its track name field is a present non-empty string and its `ms_played` is
strictly positive; the persisted events are exactly the validated
subsequence mapped onto the target user, and the excluded entries leave
no trace in the state or the response beyond being absent. -/
theorem persisted_iff_valid (db : Db) (name : String) (data : List RawRecord) :
    (uploadHandler db name [⟨some data, none⟩]).1.events
      = db.events ++ (validRecords data).map (toEvent (resolveUserUpload db name).2)
    ∧ (∀ r : RawRecord, r ∈ validRecords data ↔
        r ∈ data ∧ (∃ s, r.track = some s ∧ s ≠ "") ∧ r.ms_played > 0)
    ∧ ∀ (db2 : Db) (gname : String) (data2 : List RawRecord),
        (eventsFor (resolveUserSync db2 gname).1 (resolveUserSync db2 gname).2).length
            = 0 →
        (processGroup db2 (gname, [⟨some data2, none⟩])).events
          = db2.events
              ++ (validRecords data2).map (toEvent (resolveUserSync db2 gname).2) := by
  refine ⟨?_, ?_, ?_⟩
  · show (processFiles _ _ _).1 = _
    unfold processFiles
    simp only [List.foldl_cons, List.foldl_nil, fileEvents_no_failure]
    have : (resolveUserUpload db name).1.events = db.events := by
      unfold resolveUserUpload
      cases findUserExact db name <;> rfl
    rw [this]
  · intro r
    unfold validRecords
    rw [List.mem_filter]
    unfold isValidRecord truthyStr
    cases htr : r.track with
    | none => simp [htr]
    | some s => simp [htr, and_assoc]
  · intro db2 gname data2 h0
    unfold processGroup
    have hng : ¬ ((eventsFor
        (resolveUserSync db2 (gname, [(⟨some data2, none⟩ : FileInput)]).1).1
        (resolveUserSync db2 (gname, [(⟨some data2, none⟩ : FileInput)]).1).2).length
          > 0) := by
      show ¬ ((eventsFor (resolveUserSync db2 gname).1
          (resolveUserSync db2 gname).2).length > 0)
      omega
    rw [if_neg hng]
    show (processFiles (resolveUserSync db2 gname).2 [⟨some data2, none⟩]
        (resolveUserSync db2 gname).1.events).1 = _
    rw [processFiles_spec]
    show (resolveUserSync db2 gname).1.events
        ++ ([fileEvents (resolveUserSync db2 gname).2 ⟨some data2, none⟩].flatten) = _
    have hev : (resolveUserSync db2 gname).1.events = db2.events := by
      unfold resolveUserSync
      cases findUserCI db2 gname <;> rfl
    rw [hev]
    simp only [List.flatten_cons, List.flatten_nil, List.append_nil]
    rw [fileEvents_no_failure]

/-- Witness for `persisted_iff_valid`: syncing one parsed file holding a
single valid record for the fresh user "G" (who has no events) persists
exactly that record's event. -/
theorem persisted_iff_valid_witness :
    (processGroup ⟨[], [], 1⟩
        ("G", [⟨some [⟨"t", some "s", some "a", none, 3, none, none⟩], none⟩])).events
      = ([] : List StreamEvent)
          ++ (validRecords [⟨"t", some "s", some "a", none, 3, none, none⟩]).map
              (toEvent (resolveUserSync ⟨[], [], 1⟩ "G").2) :=
  (persisted_iff_valid ⟨[], [], 1⟩ "G" []).2.2 ⟨[], [], 1⟩ "G"
    [⟨"t", some "s", some "a", none, 3, none, none⟩] (by decide)

/-- C2: the batching loop partitions a sequence of N validated records
into ⌈N/500⌉ = (N + 499) / 500 batches (one insert statement each);
the concatenation of the batches in issue order is the input sequence,
and each record occurs across the batches exactly as often as in the
input (so each occurrence lands in exactly one batch). -/
theorem batches_partition (xs : List RawRecord) :
    (chunks BATCH_SIZE xs).length = (xs.length + 499) / 500
    ∧ (chunks BATCH_SIZE xs).flatten = xs
    ∧ ∀ r : RawRecord, ((chunks BATCH_SIZE xs).map (List.count r)).sum = xs.count r := by
  refine ⟨chunks_length BATCH_SIZE (by unfold BATCH_SIZE; omega) xs,
    chunks_flatten BATCH_SIZE (by unfold BATCH_SIZE; omega) xs, fun r => ?_⟩
  rw [← List.count_flatten,
    chunks_flatten BATCH_SIZE (by unfold BATCH_SIZE; omega) xs]

/-- C3: after a like action on comment `cid`, every `comments` row with id
`cid` stores a likes counter equal to the number of `comment_likes` rows
referencing `cid`; and a second like of the same comment by the same user
is a no-op on the whole comment state (so in particular the counter is
unchanged). -/
theorem like_count_matches_rows (s : CommentDb) (cid uid : Nat) :
    (∀ p ∈ (likeComment s cid uid).comments, p.1 = cid →
        p.2 = likeRowsFor (likeComment s cid uid) cid)
    ∧ likeComment (likeComment s cid uid) cid uid = likeComment s cid uid := by
  have hmem : (cid, uid) ∈ likeInsert s cid uid := by
    unfold likeInsert
    by_cases h : (cid, uid) ∈ s.commentLikes
    · simpa [h] using h
    · simp [h]
  have hins : likeInsert (likeComment s cid uid) cid uid = likeInsert s cid uid := by
    show (if (cid, uid) ∈ (likeComment s cid uid).commentLikes then _ else _) = _
    have : (likeComment s cid uid).commentLikes = likeInsert s cid uid := rfl
    rw [this, if_pos hmem]
  constructor
  · intro p hp hpc
    have hrows : likeRowsFor (likeComment s cid uid) cid
        = ((likeInsert s cid uid).filter (fun q => q.1 = cid)).length := rfl
    simp only [likeComment, List.mem_map] at hp
    obtain ⟨q, _, hgq⟩ := hp
    by_cases hq1 : q.1 = cid
    · rw [if_pos hq1] at hgq
      rw [← hgq, hrows]
    · rw [if_neg hq1] at hgq
      exact absurd (hgq ▸ hpc) hq1
  · have hcnt : ((likeInsert (likeComment s cid uid) cid uid).filter
        (fun q => q.1 = cid)).length
        = ((likeInsert s cid uid).filter (fun q => q.1 = cid)).length := by
      rw [hins]
    show CommentDb.mk _ _ = CommentDb.mk _ _
    rw [CommentDb.mk.injEq]
    refine ⟨?_, hins⟩
    show ((likeComment s cid uid).comments).map _ = _
    rw [hcnt]
    show (s.comments.map _).map _ = _
    rw [List.map_map]
    apply List.map_congr_left
    intro p _
    by_cases hp1 : p.1 = cid
    · simp [Function.comp, hp1]
    · simp [Function.comp, hp1]

/-- Witness for `like_count_matches_rows`: a concrete state with one
comment (id 7, stale counter 5) and one prior like by user 2; after user
3's like, the row with id 7 (now `(7, 2)`) stores exactly the number of
like rows for comment 7. -/
theorem like_count_matches_rows_witness :
    ((7, 2) : Nat × Nat).2 = likeRowsFor (likeComment ⟨[(7, 5)], [(7, 2)]⟩ 7 3) 7 :=
  (like_count_matches_rows ⟨[(7, 5)], [(7, 2)]⟩ 7 3).1 (7, 2) (by decide) rfl

/-- C4: in the artist leaderboard (rows ordered by descending summed
`ms_played`, truncated to ten), whenever user `u1` has summed duration
`D1` for the artist and some leaderboard position `j` holds user `u2`
with summed duration `D2 < D1`, user `u1`'s row occupies a strictly
higher (smaller-index) position of the leaderboard. -/
theorem leaderboard_ranks_by_duration (db : Db) (artist : String)
    (u1 u2 : Nat) (D1 D2 : Int)
    (h1 : (u1, D1) ∈ artistRows db artist) (hD : D2 < D1)
    (j : Fin (leaderboard db artist).length)
    (hj : (leaderboard db artist).get j = (u2, D2)) :
    ∃ i : Fin (leaderboard db artist).length,
      i.val < j.val ∧ (leaderboard db artist).get i = (u1, D1) := by
  have hsort : (List.insertionSort msDesc (artistRows db artist)).Sorted msDesc :=
    List.sorted_insertionSort msDesc (artistRows db artist)
  have hmem : (u1, D1) ∈ List.insertionSort msDesc (artistRows db artist) :=
    (List.perm_insertionSort msDesc (artistRows db artist)).mem_iff.mpr h1
  obtain ⟨i0, hi0⟩ := List.mem_iff_get.mp hmem
  have hjlt : j.val < (List.insertionSort msDesc (artistRows db artist)).length :=
    lt_of_lt_of_le j.isLt (by
      show (List.take 10 (List.insertionSort msDesc (artistRows db artist))).length ≤ _
      simp [List.length_take])
  have hjL : (List.insertionSort msDesc (artistRows db artist)).get ⟨j.val, hjlt⟩
      = (u2, D2) := by
    rw [← hj]
    exact (List.get_take' (List.insertionSort msDesc (artistRows db artist))).symm
  rcases Nat.lt_trichotomy i0.val j.val with hlt | heq | hgt
  · have hi0lb : i0.val < (leaderboard db artist).length :=
      Nat.lt_trans hlt j.isLt
    refine ⟨⟨i0.val, hi0lb⟩, hlt, ?_⟩
    have htake := List.get_take' (i := ⟨i0.val, hi0lb⟩)
      (List.insertionSort msDesc (artistRows db artist)) (j := 10)
    refine htake.trans ?_
    refine (congrArg (List.insertionSort msDesc (artistRows db artist)).get
      (Fin.ext rfl)).trans hi0
  · exfalso
    have : i0 = ⟨j.val, hjlt⟩ := Fin.ext heq
    rw [this, hjL] at hi0
    have : D1 = D2 := congrArg Prod.snd hi0.symm
    omega
  · exfalso
    have hrel := hsort.rel_get_of_lt (a := ⟨j.val, hjlt⟩) (b := i0) hgt
    rw [hi0, hjL] at hrel
    have : D1 ≤ D2 := hrel
    omega

/-- Witness for `leaderboard_ranks_by_duration`: two users, user 1 with
100 ms and user 2 with 50 ms on artist "X"; position 1 of the leaderboard
holds user 2, and the theorem places user 1 strictly above. -/
theorem leaderboard_ranks_by_duration_witness :
    ∃ i : Fin (leaderboard
        ⟨[⟨1, "a", "goat"⟩, ⟨2, "b", "goat"⟩],
         [⟨1, "t1", some "s1", some "X", none, 100, none, none⟩,
          ⟨2, "t2", some "s2", some "X", none, 50, none, none⟩], 3⟩ "X").length,
      i.val < 1 ∧ (leaderboard
        ⟨[⟨1, "a", "goat"⟩, ⟨2, "b", "goat"⟩],
         [⟨1, "t1", some "s1", some "X", none, 100, none, none⟩,
          ⟨2, "t2", some "s2", some "X", none, 50, none, none⟩], 3⟩ "X").get i
        = (1, 100) :=
  leaderboard_ranks_by_duration
    ⟨[⟨1, "a", "goat"⟩, ⟨2, "b", "goat"⟩],
     [⟨1, "t1", some "s1", some "X", none, 100, none, none⟩,
      ⟨2, "t2", some "s2", some "X", none, 50, none, none⟩], 3⟩ "X"
    1 2 100 50 (by decide) (by decide) ⟨1, by decide⟩ (by decide)

/-! ### Lemmas about the per-file loop and the sync run -/


theorem fileEvents_user_id (v : Nat) (f : FileInput) :
    ∀ e ∈ fileEvents v f, e.user_id = v := by
  intro e he
  unfold fileEvents at he
  obtain ⟨r, _, rfl⟩ := List.mem_map.mp he
  rfl

theorem flatten_fileEvents_user_id (v : Nat) (files : List FileInput) :
    ∀ e ∈ ((files.map (fileEvents v)).flatten), e.user_id = v := by
  intro e he
  obtain ⟨l, hl, hel⟩ := List.mem_flatten.mp he
  obtain ⟨f, _, rfl⟩ := List.mem_map.mp hl
  exact fileEvents_user_id v f e hel

theorem filter_user_append (events newEvents : List StreamEvent) (uid v : Nat)
    (hne : v ≠ uid) (hall : ∀ e ∈ newEvents, e.user_id = v) :
    (events ++ newEvents).filter (fun e => e.user_id = uid)
      = events.filter (fun e => e.user_id = uid) := by
  rw [List.filter_append]
  have hnil : newEvents.filter (fun e => e.user_id = uid) = [] := by
    rw [List.filter_eq_nil_iff]
    intro e he
    rw [hall e he]
    simpa using hne
  rw [hnil, List.append_nil]

theorem processGroup_preserves (db : Db) (g : String × List FileInput) (uid : Nat)
    (hlt : uid < db.nextUserId) (hev : 0 < (eventsFor db uid).length) :
    eventsFor (processGroup db g) uid = eventsFor db uid
    ∧ db.nextUserId ≤ (processGroup db g).nextUserId := by
  unfold processGroup
  cases hfind : findUserCI db g.1 with
  | some u =>
      have hr : resolveUserSync db g.1 = (db, u.id) := by
        unfold resolveUserSync
        rw [hfind]
      rw [hr]
      by_cases hg : (eventsFor db u.id).length > 0
      · rw [if_pos hg]
        exact ⟨rfl, le_refl _⟩
      · rw [if_neg hg]
        refine ⟨?_, le_refl _⟩
        have hne : u.id ≠ uid := by
          intro h
          rw [h] at hg
          exact hg hev
        show ((processFiles u.id g.2 db.events).1).filter _ = _
        rw [processFiles_spec]
        exact filter_user_append db.events _ uid u.id hne
          (flatten_fileEvents_user_id u.id g.2)
  | none =>
      have hr : resolveUserSync db g.1
          = (⟨db.users ++ [⟨db.nextUserId, g.1, "goat"⟩], db.events, db.nextUserId + 1⟩,
             db.nextUserId) := by
        unfold resolveUserSync
        rw [hfind]
      rw [hr]
      have hne : db.nextUserId ≠ uid := by omega
      by_cases hg : (eventsFor
          (⟨db.users ++ [⟨db.nextUserId, g.1, "goat"⟩], db.events, db.nextUserId + 1⟩ : Db)
          db.nextUserId).length > 0
      · rw [if_pos hg]
        exact ⟨rfl, Nat.le_succ _⟩
      · rw [if_neg hg]
        refine ⟨?_, Nat.le_succ _⟩
        show ((processFiles db.nextUserId g.2 db.events).1).filter _ = _
        rw [processFiles_spec]
        exact filter_user_append db.events _ uid db.nextUserId hne
          (flatten_fileEvents_user_id db.nextUserId g.2)

/-- C5: re-running the startup bulk sync when user `uid` already has at
least one persisted StreamEvent inserts no additional StreamEvents for
that user — the guard is evaluated per user, and every other group can
only insert rows for a user id other than `uid`. -/
theorem sync_idempotent_per_user (db : Db) (groups : List (String × List FileInput))
    (uid : Nat) (hlt : uid < db.nextUserId) (hev : 0 < (eventsFor db uid).length) :
    eventsFor (syncRun db groups) uid = eventsFor db uid := by
  induction groups generalizing db with
  | nil => rfl
  | cons g gs ih =>
      have hp := processGroup_preserves db g uid hlt hev
      have h1 : uid < (processGroup db g).nextUserId := lt_of_lt_of_le hlt hp.2
      have h2 : 0 < (eventsFor (processGroup db g) uid).length := by
        rw [hp.1]; exact hev
      show eventsFor (syncRun (processGroup db g) gs) uid = _
      rw [ih (processGroup db g) h1 h2, hp.1]

/-- Witness for `sync_idempotent_per_user`: user 1 ("Ann") already owns
one event; re-running the sync over a group for "Ann" carrying a file
with a fresh valid record leaves user 1's events unchanged. -/
theorem sync_idempotent_per_user_witness :
    eventsFor
        (syncRun ⟨[⟨1, "Ann", "goat"⟩],
           [⟨1, "t0", some "s0", some "A", none, 5, none, none⟩], 2⟩
          [("Ann", [⟨some [⟨"t1", some "s1", some "A", none, 9, none, none⟩], none⟩])]) 1
      = eventsFor ⟨[⟨1, "Ann", "goat"⟩],
           [⟨1, "t0", some "s0", some "A", none, 5, none, none⟩], 2⟩ 1 :=
  sync_idempotent_per_user
    ⟨[⟨1, "Ann", "goat"⟩], [⟨1, "t0", some "s0", some "A", none, 5, none, none⟩], 2⟩
    [("Ann", [⟨some [⟨"t1", some "s1", some "A", none, 9, none, none⟩], none⟩])]
    1 (by decide) (by decide)

/-- C6 counterexample: the upload endpoint's resolver uses exact string
equality (`WHERE username = $1`), so with an existing user "nova" the
submitted name "NOVA" does NOT return that user's id — a second user is
created (id 2 handed out, users table grows to two rows), refuting the
claim that lookup is case-insensitive for every display name submitted to
the User Resolver. -/
theorem upload_resolver_case_counterexample :
    resolveUserUpload ⟨[⟨1, "nova", "goat"⟩], [], 2⟩ "NOVA"
        ≠ (⟨[⟨1, "nova", "goat"⟩], [], 2⟩, 1)
    ∧ (resolveUserUpload ⟨[⟨1, "nova", "goat"⟩], [], 2⟩ "NOVA").1.users.length = 2
    ∧ (resolveUserUpload ⟨[⟨1, "nova", "goat"⟩], [], 2⟩ "NOVA").2 = 2 := by
  refine ⟨?_, by decide, by decide⟩
  intro h
  exact absurd (congrArg (fun p => p.1.users.length) h) (by decide)

/-- C6 amended: lookup is case-insensitive only on the sync path — there,
a user whose name matches the submitted name up to letter case is reused
and no row is inserted; the upload endpoint's resolver is case-sensitive,
so when no exact match exists (even though a case-variant user exists) it
creates a fresh user with the default avatar. -/
theorem resolver_case_semantics :
    (∀ (db : Db) (name : String) (u : User), u ∈ db.users →
        lowerKey u.username = lowerKey name →
        ∃ v, v ∈ db.users ∧ lowerKey v.username = lowerKey name ∧
          resolveUserSync db name = (db, v.id))
    ∧ (∀ (db : Db) (name : String), (∀ u ∈ db.users, u.username ≠ name) →
        resolveUserUpload db name
          = (⟨db.users ++ [⟨db.nextUserId, name, "goat"⟩], db.events, db.nextUserId + 1⟩,
             db.nextUserId)) := by
  constructor
  · intro db name u hu hkey
    have hex : ∃ x ∈ db.users, (fun v => ciEq v.username name) x = true :=
      ⟨u, hu, by unfold ciEq; exact decide_eq_true hkey⟩
    have hsome : (db.users.find? (fun v => ciEq v.username name)).isSome :=
      List.find?_isSome.mpr hex
    obtain ⟨v, hv⟩ := Option.isSome_iff_exists.mp hsome
    refine ⟨v, List.mem_of_find?_eq_some hv, ?_, ?_⟩
    · have := List.find?_some hv
      unfold ciEq at this
      exact of_decide_eq_true this
    · unfold resolveUserSync findUserCI
      rw [hv]
  · intro db name hne
    have hnone : findUserExact db name = none := by
      unfold findUserExact
      rw [List.find?_eq_none]
      intro u hu
      simpa using hne u hu
    unfold resolveUserUpload
    rw [hnone]

/-- Witness for `resolver_case_semantics`: with a lone user "nova", the
sync resolver reuses it for the submitted name "NOVA", while the upload
resolver (no exact match for "NOVA") mints user 2. -/
theorem resolver_case_semantics_witness :
    (∃ v, v ∈ (⟨[⟨1, "nova", "goat"⟩], [], 2⟩ : Db).users
        ∧ lowerKey v.username = lowerKey "NOVA"
        ∧ resolveUserSync ⟨[⟨1, "nova", "goat"⟩], [], 2⟩ "NOVA"
            = (⟨[⟨1, "nova", "goat"⟩], [], 2⟩, v.id))
    ∧ resolveUserUpload ⟨[⟨1, "nova", "goat"⟩], [], 2⟩ "NOVA"
        = (⟨[⟨1, "nova", "goat"⟩, ⟨2, "NOVA", "goat"⟩], [], 3⟩, 2) :=
  ⟨resolver_case_semantics.1 ⟨[⟨1, "nova", "goat"⟩], [], 2⟩ "NOVA"
      ⟨1, "nova", "goat"⟩ (by decide) (by decide),
   resolver_case_semantics.2 ⟨[⟨1, "nova", "goat"⟩], [], 2⟩ "NOVA" (by decide)⟩

set_option maxRecDepth 400000 in
/-- C7 counterexample: two uploaded files — the first with 501 valid
records and a storage error at its second insert statement (so its first
batch of 500 rows is already persisted when the file aborts), the second
with 3 valid records and no error.  The endpoint reports success with
`recordsImported = 503`, while the count "accumulated from the files that
succeeded" is 3: the response also counts the 500 records of the failed
file's completed batch, refuting that clause of the claim. -/
theorem upload_partial_count_counterexample :
    (uploadHandler ⟨[], [], 1⟩ "U"
        [⟨some (List.replicate 501 ⟨"t", some "s", some "A", none, 1, none, none⟩), some 1⟩,
         ⟨some [⟨"t", some "s", some "A", none, 1, none, none⟩,
                ⟨"t", some "s", some "A", none, 2, none, none⟩,
                ⟨"t", some "s", some "A", none, 3, none, none⟩], none⟩]).2.success = true
    ∧ (uploadHandler ⟨[], [], 1⟩ "U"
        [⟨some (List.replicate 501 ⟨"t", some "s", some "A", none, 1, none, none⟩), some 1⟩,
         ⟨some [⟨"t", some "s", some "A", none, 1, none, none⟩,
                ⟨"t", some "s", some "A", none, 2, none, none⟩,
                ⟨"t", some "s", some "A", none, 3, none, none⟩], none⟩]).2.recordsImported
        = 503
    ∧ succeededRecordCount
        [⟨some (List.replicate 501 ⟨"t", some "s", some "A", none, 1, none, none⟩), some 1⟩,
         ⟨some [⟨"t", some "s", some "A", none, 1, none, none⟩,
                ⟨"t", some "s", some "A", none, 2, none, none⟩,
                ⟨"t", some "s", some "A", none, 3, none, none⟩], none⟩] = 3
    ∧ (503 : Nat) ≠ 3 := by
  refine ⟨by decide, by decide, by decide, by decide⟩

/-- C7 amended: an error in one file (parse error, or a storage error that
aborts that file's remaining batches) does not affect any other file's
contribution — each file contributes exactly its own inserted batches,
independently of the rest — and the endpoint always reports success with
`recordsImported` accumulating every successfully issued batch, including
batches a failing file inserted before its error (not only the records of
files that succeeded). -/
theorem upload_file_isolation (db : Db) (name : String) (files : List FileInput) :
    (uploadHandler db name files).2.success = true
    ∧ (uploadHandler db name files).2.recordsImported
        = (files.map (fun f => ((insertedBatches f).flatten).length)).sum
    ∧ (uploadHandler db name files).1.events
        = db.events
            ++ ((files.map (fileEvents (resolveUserUpload db name).2)).flatten) := by
  refine ⟨rfl, ?_, ?_⟩
  · show (processFiles (resolveUserUpload db name).2 files
        (resolveUserUpload db name).1.events).2 = _
    rw [processFiles_spec]
    show ((files.map (fileEvents (resolveUserUpload db name).2)).map List.length).sum = _
    rw [List.map_map]
    congr 1
    apply List.map_congr_left
    intro f _
    show (fileEvents _ f).length = ((insertedBatches f).flatten).length
    unfold fileEvents
    rw [List.length_map]
  · show (processFiles (resolveUserUpload db name).2 files
        (resolveUserUpload db name).1.events).1 = _
    rw [processFiles_spec]
    show (resolveUserUpload db name).1.events ++ _ = _
    have hev : (resolveUserUpload db name).1.events = db.events := by
      unfold resolveUserUpload
      cases findUserExact db name <;> rfl
    rw [hev]

/-- C8: uploading one file with three entries — `ms_played` 1000 and 2000
on distinct track names, and one entry with `ms_played = 0` — for the new
user "Nova" answers success with `userId = 1` and `recordsImported = 2`;
the profile fetch for "Nova" then reports `totalMinutes = 0`
(`Math.round(3000 / 60000)`) and `totalSongs = 2`. -/
theorem nova_scenario :
    (uploadHandler ⟨[], [], 1⟩ "Nova"
        [⟨some [⟨"2024-01-01T00:00:00Z", some "Song A", some "Artist", some "Album",
                  1000, none, none⟩,
                ⟨"2024-01-02T00:00:00Z", some "Song B", some "Artist", some "Album",
                  2000, none, none⟩,
                ⟨"2024-01-03T00:00:00Z", some "Song C", some "Artist", some "Album",
                  0, none, none⟩], none⟩]).2
      = ⟨true, 1, 2⟩
    ∧ getUserProfile
        (uploadHandler ⟨[], [], 1⟩ "Nova"
          [⟨some [⟨"2024-01-01T00:00:00Z", some "Song A", some "Artist", some "Album",
                    1000, none, none⟩,
                  ⟨"2024-01-02T00:00:00Z", some "Song B", some "Artist", some "Album",
                    2000, none, none⟩,
                  ⟨"2024-01-03T00:00:00Z", some "Song C", some "Artist", some "Album",
                    0, none, none⟩], none⟩]).1 "Nova"
      = some (1, 0, 2) := by
  exact ⟨by decide, by decide⟩

/-- C9: `totalSongs` counts distinct non-NULL track names, not
StreamEvents: inserting a further play of a track name the user already
has leaves `totalSongs` unchanged while the user's event count grows by
one — so two plays of one track contribute 1, not 2, to `totalSongs`. -/
theorem totalSongs_counts_distinct_tracks (db : Db) (uid : Nat) (e : StreamEvent)
    (t : String) (hu : e.user_id = uid) (ht : e.track_name = some t)
    (hex : ∃ e2 ∈ db.events, e2.user_id = uid ∧ e2.track_name = some t) :
    totalSongs ⟨db.users, e :: db.events, db.nextUserId⟩ uid = totalSongs db uid
    ∧ (eventsFor ⟨db.users, e :: db.events, db.nextUserId⟩ uid).length
        = (eventsFor db uid).length + 1 := by
  have hfil : eventsFor ⟨db.users, e :: db.events, db.nextUserId⟩ uid
      = e :: eventsFor db uid := by
    unfold eventsFor
    show (e :: db.events).filter _ = _
    rw [List.filter_cons_of_pos (by simp [hu])]
  have htmem : t ∈ (eventsFor db uid).filterMap (fun ev => ev.track_name) := by
    obtain ⟨e2, hmem, hu2, ht2⟩ := hex
    exact List.mem_filterMap.mpr
      ⟨e2, List.mem_filter.mpr ⟨hmem, by simp [hu2]⟩, ht2⟩
  constructor
  · unfold totalSongs
    rw [hfil]
    show ((e :: eventsFor db uid).filterMap (fun ev => ev.track_name)).dedup.length = _
    rw [List.filterMap_cons_some ht, List.dedup_cons_of_mem htmem]
  · rw [hfil]
    rfl

/-- Witness for `totalSongs_counts_distinct_tracks`: user 1 already
played track "s"; a second play of "s" leaves `totalSongs` at its old
value while the event count becomes old + 1. -/
theorem totalSongs_counts_distinct_tracks_witness :
    totalSongs ⟨[⟨1, "A", "goat"⟩],
        ⟨1, "t1", some "s", some "a", none, 7, none, none⟩
          :: [⟨1, "t0", some "s", some "a", none, 5, none, none⟩], 2⟩ 1
      = totalSongs ⟨[⟨1, "A", "goat"⟩],
          [⟨1, "t0", some "s", some "a", none, 5, none, none⟩], 2⟩ 1
    ∧ (eventsFor ⟨[⟨1, "A", "goat"⟩],
        ⟨1, "t1", some "s", some "a", none, 7, none, none⟩
          :: [⟨1, "t0", some "s", some "a", none, 5, none, none⟩], 2⟩ 1).length
      = (eventsFor ⟨[⟨1, "A", "goat"⟩],
          [⟨1, "t0", some "s", some "a", none, 5, none, none⟩], 2⟩ 1).length + 1 :=
  totalSongs_counts_distinct_tracks
    ⟨[⟨1, "A", "goat"⟩], [⟨1, "t0", some "s", some "a", none, 5, none, none⟩], 2⟩
    1 ⟨1, "t1", some "s", some "a", none, 7, none, none⟩ "s" rfl rfl
    ⟨⟨1, "t0", some "s", some "a", none, 5, none, none⟩, by decide, by decide⟩

/-- C10: the upload endpoint resolves or creates the target user before
touching any file: the response is success, its `userId` and the final
`users` table are exactly those produced by user resolution — independent
of the files, in particular when every file fails — and a row with the
returned id is present in the persisted `users` table. -/
theorem upload_user_resolved_first (db : Db) (name : String) (files : List FileInput) :
    (uploadHandler db name files).2.success = true
    ∧ (uploadHandler db name files).2.userId = (resolveUserUpload db name).2
    ∧ (uploadHandler db name files).1.users = (resolveUserUpload db name).1.users
    ∧ ∃ u, u ∈ (uploadHandler db name files).1.users
        ∧ u.id = (uploadHandler db name files).2.userId := by
  refine ⟨rfl, rfl, rfl, ?_⟩
  show ∃ u, u ∈ (resolveUserUpload db name).1.users
      ∧ u.id = (resolveUserUpload db name).2
  cases hf : findUserExact db name with
  | some u =>
      have hr : resolveUserUpload db name = (db, u.id) := by
        unfold resolveUserUpload
        rw [hf]
      rw [hr]
      unfold findUserExact at hf
      exact ⟨u, List.mem_of_find?_eq_some hf, rfl⟩
  | none =>
      have hr : resolveUserUpload db name
          = (⟨db.users ++ [⟨db.nextUserId, name, "goat"⟩], db.events,
              db.nextUserId + 1⟩, db.nextUserId) := by
        unfold resolveUserUpload
        rw [hf]
      rw [hr]
      exact ⟨⟨db.nextUserId, name, "goat"⟩,
        List.mem_append_right _ (List.mem_singleton_self _), rfl⟩
